import Mathlib

/-!
Verification development for the lazy-loading, memory-bounded data access layer
of the apple-health-mcp server (src/core/cache.ts, src/core/optimizer.ts,
src/core/memory.ts, src/db/catalog.ts and the query tool pipeline).

Modelling conventions (shallow embedding):
- JavaScript `Map` objects are modelled as association lists in insertion
  order; `Map.set` replaces in place when the key exists and appends
  otherwise, `Map.delete` removes the (first) binding, iteration follows
  list order.  These match the ECMAScript `Map` iteration contract.
- `Date.now()` timestamps and `getTime()` values are explicit `Int`
  parameters threaded through the operations.
- The SHA-256 digest used for cache keys is modelled by the identity on its
  input string (`query + JSON.stringify(params)`); the digest is a
  deterministic injective renaming of that input, and no claim depends on
  the literal digest bytes.
- The DuckDB engine is modelled by outcome oracles: a bulk-load step either
  fails with an error string or reports the number of qualifying staged
  rows, the clean/optimize phase either fails or succeeds, statement
  execution maps a SQL string to an error or a result.  The engine-side
  table artifacts of one load are tracked as a pair of booleans
  (staging table present, final table present).
- Asynchronous `Promise.all` sequences are modelled as sequential folds
  with first-error short-circuit, and string lowercasing is per-character
  ASCII lowering (all the strings the code matches on are ASCII).
-/

/-! ### Strings: lowercasing and substring search (`String.prototype.includes`) -/

/-- Per-character lowercasing, modelling `String.prototype.toLowerCase` on
the ASCII strings this code matches against. -/
def lowerStr (s : String) : String :=
  ⟨s.data.map Char.toLower⟩

/-- `hasSub pat l` is true when `pat` occurs contiguously inside `l`,
scanning left to right (the semantics of `String.prototype.includes`). -/
def hasSub (pat : List Char) : List Char → Bool
  | [] => pat.isEmpty
  | c :: rest => pat.isPrefixOf (c :: rest) || hasSub pat rest

/-- `strIncludes s pat` models `s.includes(pat)`. -/
def strIncludes (s pat : String) : Bool :=
  hasSub pat.data s.data

/-! ### JavaScript `Map` as an insertion-ordered association list -/

/-- `Map.prototype.get`. -/
def mapGet {β : Type} (l : List (String × β)) (k : String) : Option β :=
  match l with
  | [] => none
  | (k', v) :: rest => if k' = k then some v else mapGet rest k

/-- `Map.prototype.set`: replace in place if the key exists, append otherwise. -/
def mapSet {β : Type} (l : List (String × β)) (k : String) (v : β) : List (String × β) :=
  match l with
  | [] => [(k, v)]
  | (k', v') :: rest => if k' = k then (k, v) :: rest else (k', v') :: mapSet rest k v

/-- `Map.prototype.delete`: remove the binding of `k` (the first one). -/
def mapDelete {β : Type} (l : List (String × β)) (k : String) : List (String × β) :=
  match l with
  | [] => []
  | (k', v') :: rest => if k' = k then rest else (k', v') :: mapDelete rest k

/-! ### Query results and the query cache (src/core/cache.ts) -/

/-- `QueryResult` from src/types.ts; row values are modelled as strings. -/
structure QueryResult where
  columns : List String
  rows : List (List String)
  rowCount : Nat
  executionTime : Int
deriving DecidableEq

/-- `CachedResult` from src/types.ts. -/
structure CachedResult where
  result : QueryResult
  timestamp : Int
  ttl : Int
deriving DecidableEq

/-- The `QueryCache` state: the backing `Map` and `maxSize`. -/
structure QueryCache where
  cache : List (String × CachedResult)
  maxSize : Nat
deriving DecidableEq

/-- A fresh cache, as built by `new QueryCache(maxSize)`. -/
def QueryCache.empty (maxSize : Nat) : QueryCache :=
  ⟨[], maxSize⟩

/-- `defaultTTL = 5 * 60 * 1000`. -/
def defaultTTL : Nat := 5 * 60 * 1000

/-- `getCacheKey`: `sha256(query + (params ? JSON.stringify(params) : ''))`,
with the digest modelled as the identity on its input and the serialized
parameter object passed as an optional string. -/
def getCacheKey (query : String) (params : Option String) : String :=
  query ++ params.getD ""

/-- `QueryCache.getTTL`: aggregate-looking queries get 10 minutes, then
queries mentioning the current moment get 1 minute, else the default. -/
def getTTL (query : String) : Nat :=
  if strIncludes (lowerStr query) "group by" ||
      strIncludes (lowerStr query) "avg(" ||
      strIncludes (lowerStr query) "sum(" then
    10 * 60 * 1000
  else if strIncludes (lowerStr query) "current_date" ||
      strIncludes (lowerStr query) "now()" then
    60 * 1000
  else
    defaultTTL

/-- `QueryCache.get`: look the key up; a stale entry
(`now - timestamp > ttl`) is deleted and reported absent. Returns the
result (if any) together with the updated cache state. -/
def QueryCache.get (c : QueryCache) (query : String) (params : Option String)
    (now : Int) : Option QueryResult × QueryCache :=
  let key := getCacheKey query params
  match mapGet c.cache key with
  | none => (none, c)
  | some cached =>
    if now - cached.timestamp > cached.ttl then
      (none, { c with cache := mapDelete c.cache key })
    else
      (some cached.result, c)

/-- `findOldestEntry` inner loop: running best `(key, timestamp)`, strict
`<` comparison so the earliest-iterated entry wins ties. -/
def findOldestAux (best : String × Int) : List (String × CachedResult) → String
  | [] => best.1
  | (k, v) :: rest =>
    if v.timestamp < best.2 then findOldestAux (k, v.timestamp) rest
    else findOldestAux best rest

/-- `QueryCache.findOldestEntry`: the key with the smallest timestamp
(first such key in iteration order); `none` on an empty cache (the JS
initial best time is `Infinity`, so the first entry always becomes the
initial best). -/
def findOldestEntry : List (String × CachedResult) → Option String
  | [] => none
  | (k, v) :: rest => some (findOldestAux (k, v.timestamp) rest)

/-- `QueryCache.set`: when `size >= maxSize` first delete the oldest entry,
then `Map.set` the new entry with `timestamp = now` and the class TTL. -/
def QueryCache.set (c : QueryCache) (query : String) (result : QueryResult)
    (params : Option String) (now : Int) : QueryCache :=
  let key := getCacheKey query params
  let c1 : QueryCache :=
    if c.cache.length ≥ c.maxSize then
      match findOldestEntry c.cache with
      | some oldestKey => { c with cache := mapDelete c.cache oldestKey }
      | none => c
    else c
  { c1 with cache := mapSet c1.cache key ⟨result, now, getTTL query⟩ }

/-- Folding `set` over a list of (query, insertion time) pairs with a fixed
result payload (the payload is irrelevant to size/eviction behaviour). -/
def setMany (c : QueryCache) (items : List (String × Int)) (r : QueryResult) :
    QueryCache :=
  items.foldl (fun acc it => QueryCache.set acc it.1 r none it.2) c

/-- The cache binding produced by inserting `(query, time)` with payload
`r` and no parameters. -/
def cacheEntryOf (r : QueryResult) (it : String × Int) : String × CachedResult :=
  (getCacheKey it.1 none, ⟨r, it.2, getTTL it.1⟩)

/-! ### The file catalog (src/db/catalog.ts, class FileCatalog) -/

/-- `CatalogEntry` from src/types.ts (`lastAccessed` as epoch millis). -/
structure CatalogEntry where
  path : String
  loaded : Bool
  rowCount : Option Nat
  lastAccessed : Option Int
deriving DecidableEq

/-- The catalog `Map`, keyed by lowercase canonical table name. -/
abbrev Catalog := List (String × CatalogEntry)

/-- In-place mutation of the entry found by `catalog.get(key)` (keys are
unique, so mapping over all bindings of the key is the same thing). -/
def updateEntry (cat : Catalog) (key : String) (f : CatalogEntry → CatalogEntry) :
    Catalog :=
  cat.map (fun p => if p.1 = key then (p.1, f p.2) else p)

/-- `FileCatalog.getEntry`: case-insensitive lookup. -/
def getEntry (cat : Catalog) (tableName : String) : Option CatalogEntry :=
  mapGet cat (lowerStr tableName)

/-- `FileCatalog.markLoaded`. -/
def markLoaded (cat : Catalog) (tableName : String) (rowCount : Nat) (now : Int) :
    Catalog :=
  updateEntry cat (lowerStr tableName)
    (fun e => { e with loaded := true, rowCount := some rowCount, lastAccessed := some now })

/-- `FileCatalog.markUnloaded`: only flips `loaded`. -/
def markUnloaded (cat : Catalog) (tableName : String) : Catalog :=
  updateEntry cat (lowerStr tableName) (fun e => { e with loaded := false })

/-- `FileCatalog.getAllTables`. -/
def getAllTables (cat : Catalog) : List String :=
  cat.map Prod.fst

/-- `entry.lastAccessed?.getTime() || 0` — absent access time coerces to 0. -/
def accessTime (e : CatalogEntry) : Int :=
  e.lastAccessed.getD 0

/-- The comparator `timeA - timeB` as an ordering relation (ascending). -/
def accessLE (a b : String × CatalogEntry) : Prop :=
  accessTime a.2 ≤ accessTime b.2

instance : DecidableRel accessLE :=
  fun a b => inferInstanceAs (Decidable (accessTime a.2 ≤ accessTime b.2))

instance : IsTotal (String × CatalogEntry) accessLE :=
  ⟨fun _ _ => Int.le_total _ _⟩

instance : IsTrans (String × CatalogEntry) accessLE :=
  ⟨fun _ _ _ hab hbc => le_trans hab hbc⟩

/-- `FileCatalog.getTablesByLastAccess`, before projecting to names: the
loaded entries, sorted ascending by access time.  `Array.prototype.sort`
is stable, which a stable insertion sort models exactly. -/
def catalogByAccess (cat : Catalog) : List (String × CatalogEntry) :=
  List.insertionSort accessLE (cat.filter (fun p => p.2.loaded))

/-- `FileCatalog.getTablesByLastAccess`. -/
def getTablesByLastAccess (cat : Catalog) : List String :=
  (catalogByAccess cat).map Prod.fst

/-! ### The table loader (src/db/catalog.ts, class TableLoader) -/

/-- Outcomes the engine hands one load attempt: the staging `CREATE TABLE
... AS read_csv` together with the staged-row count query (an error or the
count of qualifying rows), and the clean/optimize phase. -/
structure LoadEnv where
  createRes : Except String Nat
  cleanRes : Except String Unit

/-- Engine-side artifacts of one load: does the staging table exist, does
the final table exist. -/
structure DbState where
  staging : Bool
  finalTable : Bool
deriving DecidableEq

/-- Result of a loader operation: updated catalog, engine artifacts, and
the propagated error message, if any. -/
structure LoadOutcome where
  cat : Catalog
  db : DbState
  err : Option String
deriving DecidableEq

/-- `TableLoader.loadTable`: stage recent rows, count them; zero rows is a
successful no-load (staging dropped, catalog untouched); a positive count
runs the clean/optimize phase and `markLoaded`; any thrown error drops the
staging table and is rethrown as `Failed to load table <name>: <error>`. -/
def loadTable (cat : Catalog) (tableName filePath : String) (env : LoadEnv)
    (now : Int) : LoadOutcome :=
  match env.createRes with
  | Except.error e =>
    ⟨cat, ⟨false, false⟩, some ("Failed to load table " ++ tableName ++ ": " ++ e)⟩
  | Except.ok rowCount =>
    if rowCount > 0 then
      match env.cleanRes with
      | Except.error e =>
        ⟨cat, ⟨false, false⟩, some ("Failed to load table " ++ tableName ++ ": " ++ e)⟩
      | Except.ok _ =>
        ⟨markLoaded cat tableName rowCount now, ⟨false, true⟩, none⟩
    else
      ⟨cat, ⟨false, false⟩, none⟩

/-- `TableLoader.ensureTableLoaded`: unknown table throws, a loaded table
just gets `lastAccessed` refreshed, otherwise `loadTable` runs.  The
`filePath` argument of `loadTable` is the catalog entry's path. -/
def ensureTableLoaded (cat : Catalog) (tableName : String) (env : LoadEnv)
    (now : Int) : LoadOutcome :=
  match getEntry cat tableName with
  | none =>
    ⟨cat, ⟨false, false⟩, some ("Table " ++ tableName ++ " not found in catalog")⟩
  | some entry =>
    if entry.loaded then
      ⟨updateEntry cat (lowerStr tableName) (fun e => { e with lastAccessed := some now }),
        ⟨false, false⟩, none⟩
    else
      loadTable cat tableName entry.path env now

/-- `TableLoader.unloadTable`: the whole body is inside `try/catch`, so it
always resolves; when the engine drop (`dropRes`) fails, `markUnloaded` is
not reached and the catalog is untouched. -/
def unloadTable (cat : Catalog) (tableName : String) (dropRes : Except String Unit) :
    Except String Catalog :=
  match dropRes with
  | Except.ok _ => Except.ok (markUnloaded cat tableName)
  | Except.error _ => Except.ok cat

/-- `TableLoader.extractTableNames`: the catalog tables whose (lowercase)
name occurs as a substring of the lowercased query. -/
def extractTableNames (cat : Catalog) (query : String) : List String :=
  (getAllTables cat).filter (fun t => strIncludes (lowerStr query) t)

/-! ### The memory manager (src/core/memory.ts) -/

/-- `MemoryManager.forceEviction`: unload the `count` least recently
accessed loaded tables.  `unloadTable` never rejects (see its try/catch),
so the fold's error branch is unreachable. -/
def forceEviction (cat : Catalog) (count : Nat)
    (dropRes : String → Except String Unit) : Catalog :=
  ((getTablesByLastAccess cat).take count).foldl
    (fun c t =>
      match unloadTable c t (dropRes t) with
      | Except.ok c2 => c2
      | Except.error _ => c)
    cat

/-! ### The query optimizer (src/core/optimizer.ts) -/

/-- The `daily_heart_rate` view body (template literal, verbatim). -/
def dailyHeartRateDef : String :=
  "\n      SELECT \n        DATE(startDate) as date,\n        AVG(value) as avg_hr,\n        MIN(value) as min_hr,\n        MAX(value) as max_hr,\n        COUNT(*) as readings\n      FROM hkquantitytypeidentifierheartrate\n      GROUP BY DATE(startDate)\n    "

/-- The `weekly_activity` view body (template literal, verbatim). -/
def weeklyActivityDef : String :=
  "\n      SELECT \n        DATE_TRUNC('week', startDate) as week_start,\n        SUM(CASE WHEN type LIKE '%StepCount%' THEN value ELSE 0 END) as total_steps,\n        SUM(CASE WHEN type LIKE '%ActiveEnergyBurned%' THEN value ELSE 0 END) as active_calories,\n        SUM(CASE WHEN type LIKE '%DistanceWalkingRunning%' THEN value ELSE 0 END) as distance_km\n      FROM (\n        SELECT * FROM hkquantitytypeidentifierstepcount\n        UNION ALL\n        SELECT * FROM hkquantitytypeidentifieractiveenergyburned\n        UNION ALL\n        SELECT * FROM hkquantitytypeidentifierdistancewalkingrunning\n      )\n      GROUP BY DATE_TRUNC('week', startDate)\n    "

/-- The `sleep_summary` view body (template literal, verbatim). -/
def sleepSummaryDef : String :=
  "\n      SELECT \n        DATE(startDate) as sleep_date,\n        SUM(CASE WHEN type LIKE '%AsleepCore%' THEN value ELSE 0 END) / 3600 as core_hours,\n        SUM(CASE WHEN type LIKE '%AsleepDeep%' THEN value ELSE 0 END) / 3600 as deep_hours,\n        SUM(CASE WHEN type LIKE '%AsleepREM%' THEN value ELSE 0 END) / 3600 as rem_hours,\n        SUM(value) / 3600 as total_hours\n      FROM hkcategorytypeidentifiersleepanalysis\n      WHERE type LIKE '%Asleep%'\n      GROUP BY DATE(startDate)\n    "

/-- `initializeViews`: the view map in insertion order. -/
def viewDefinitions : List (String × String) :=
  [("daily_heart_rate", dailyHeartRateDef),
   ("weekly_activity", weeklyActivityDef),
   ("sleep_summary", sleepSummaryDef)]

/-- One step of `new RegExp(viewName, 'gi')` replacement: scan left to
right, and at each position where the (lowercase) pattern matches the
lowercased text, emit the replacement and resume after the match; the
view names contain no regex metacharacters, so the regex is a literal
case-insensitive substring replace. -/
def replaceCIAux (pat repl : List Char) : List Char → List Char
  | [] => []
  | c :: rest =>
    if pat.isPrefixOf ((c :: rest).map Char.toLower) then
      repl ++ replaceCIAux pat repl (rest.drop (pat.length - 1))
    else
      c :: replaceCIAux pat repl rest
termination_by l => l.length
decreasing_by
  · simp only [List.length_drop, List.length_cons]
    omega
  · simp

/-- `optimized.replace(new RegExp(viewName, 'gi'), repl)` for the
lowercase view names of this optimizer. -/
def replaceCI (s pat repl : String) : String :=
  ⟨replaceCIAux pat.data repl.data s.data⟩

/-- The substitution loop of `QueryOptimizer.optimizeQuery`: for each view
whose name occurs in the lowercased *original* query, replace all its
case-insensitive occurrences in the running text with the parenthesized
view body. -/
def substituteViews (views : List (String × String)) (query : String) : String :=
  views.foldl
    (fun optimized vw =>
      if strIncludes (lowerStr query) vw.1 then
        replaceCI optimized vw.1 ("(" ++ vw.2 ++ ")")
      else optimized)
    query

/-- The `Promise.all(requiredTables.map(ensureTableLoaded))` step,
modelled sequentially with first-error short-circuit. -/
def ensureAllLoaded (cat : Catalog) (names : List String)
    (env : String → LoadEnv) (now : Int) : Except String Catalog :=
  match names with
  | [] => Except.ok cat
  | n :: rest =>
    let r := ensureTableLoaded cat n (env n) now
    match r.err with
    | some e => Except.error e
    | none => ensureAllLoaded r.cat rest env now

/-- `QueryOptimizer.optimizeQuery`: extract referenced tables, ensure each
is loaded, then substitute views. -/
def optimizeQuery (cat : Catalog) (env : String → LoadEnv) (query : String)
    (now : Int) : Except String (Catalog × String) :=
  match ensureAllLoaded cat (extractTableNames cat query) env now with
  | Except.error e => Except.error e
  | Except.ok cat2 => Except.ok (cat2, substituteViews viewDefinitions query)

/-! ### The Rewriter → Cache → execute pipeline (health_query tool) -/

/-- What one pipeline run produced: the result, whether the engine was
actually asked to execute the (optimized) query, and the updated cache and
catalog states. -/
structure PipelineOut where
  result : QueryResult
  executedOnEngine : Bool
  cache : QueryCache
  cat : Catalog
deriving DecidableEq

/-- The control flow of `HealthQueryTool.execute` after validation:
optimize (ensuring loads), then `cache.getOrExecute` (serve a fresh cached
result, otherwise execute on the engine and store). -/
def runQueryPipeline (cat : Catalog) (cache : QueryCache)
    (env : String → LoadEnv) (engine : String → Except String QueryResult)
    (query : String) (now : Int) : Except String PipelineOut :=
  match optimizeQuery cat env query now with
  | Except.error e => Except.error e
  | Except.ok (cat2, optimized) =>
    match QueryCache.get cache optimized none now with
    | (some r, cache2) => Except.ok ⟨r, false, cache2, cat2⟩
    | (none, cache2) =>
      match engine optimized with
      | Except.error e => Except.error e
      | Except.ok r =>
        Except.ok ⟨r, true, QueryCache.set cache2 optimized r none now, cat2⟩

/-! ### Concrete fixtures used by counterexamples and scenario checks -/

/-- A dummy query result. -/
def dummyResult : QueryResult := ⟨[], [], 0, 0⟩

/-- A one-table catalog (the heart-rate dataset, not yet loaded). -/
def cexCatalog : Catalog :=
  [("hkquantitytypeidentifierheartrate",
    ⟨"/data/HKQuantityTypeIdentifierHeartRate.csv", false, none, none⟩)]

/-! ### Shared helper lemmas -/

/-- A pattern occurs in any text that displays it between a prefix and a
suffix. -/
theorem hasSub_middle (pat pre suf : List Char) :
    hasSub pat (pre ++ (pat ++ suf)) = true := by
  induction pre with
  | nil =>
    simp only [List.nil_append]
    cases hp : pat ++ suf with
    | nil =>
      have hpat : pat = [] := by
        cases pat with
        | nil => rfl
        | cons c cs => simp at hp
      simp [hasSub, hpat]
    | cons c rest =>
      rw [hasSub]
      have hpre : pat.isPrefixOf (c :: rest) = true := by
        rw [← hp]
        exact List.isPrefixOf_iff_prefix.mpr ⟨suf, rfl⟩
      simp [hpre]
  | cons c pre ih =>
    rw [List.cons_append, hasSub, ih]
    simp

/-- String version of `hasSub_middle`. -/
theorem strIncludes_middle (pre mid suf : String) :
    strIncludes (pre ++ mid ++ suf) mid = true := by
  unfold strIncludes
  have hdata : (pre ++ mid ++ suf).data = pre.data ++ (mid.data ++ suf.data) := by
    simp [List.append_assoc]
  rw [hdata]
  exact hasSub_middle _ _ _

/-! ### Claim C2: cache TTL boundary behaviour -/

/-- C2 counterexample: an entry created at time 0 with TTL 100 is still
returned by `get` at time 100 (`now - createdAt` exactly the TTL), and the
entry is not evicted — the claim says it is absent at that instant. -/
theorem claim2_counterexample :
    QueryCache.get ⟨[("q", ⟨dummyResult, 0, 100⟩)], 10⟩ "q" none 100
      = (some dummyResult, ⟨[("q", ⟨dummyResult, 0, 100⟩)], 10⟩) := by decide

/-- C2 (amended): `get` returns the stored result iff
`now - createdAt ≤ ttlMs`; when `now - createdAt > ttlMs` it deletes the
entry and returns absent.  At `now - createdAt = ttlMs` the entry is
present (non-strict comparison), unlike the claimed strict bound. -/
theorem claim2_amended (c : QueryCache) (query : String) (params : Option String)
    (now : Int) (cr : CachedResult)
    (h : mapGet c.cache (getCacheKey query params) = some cr) :
    (now - cr.timestamp ≤ cr.ttl →
      QueryCache.get c query params now = (some cr.result, c)) ∧
    (now - cr.timestamp > cr.ttl →
      QueryCache.get c query params now =
        (none, { c with cache := mapDelete c.cache (getCacheKey query params) })) := by
  constructor
  · intro hle
    simp only [QueryCache.get, h]
    rw [if_neg (not_lt.mpr hle)]
  · intro hgt
    simp only [QueryCache.get, h]
    rw [if_pos hgt]

/-- C2 witness: the amended theorem at a concrete fresh entry. -/
theorem claim2_witness :
    QueryCache.get ⟨[("q", ⟨dummyResult, 0, 100⟩)], 10⟩ "q" none 40
      = (some dummyResult, ⟨[("q", ⟨dummyResult, 0, 100⟩)], 10⟩) :=
  (claim2_amended ⟨[("q", ⟨dummyResult, 0, 100⟩)], 10⟩ "q" none 40
    ⟨dummyResult, 0, 100⟩ (by decide)).1 (by decide)

/-! ### Claim C8: TTL classification of current-moment queries -/

/-- C8 counterexample: a query containing `current_date` but also `avg(`
receives the 10-minute aggregate TTL, not the short 1-minute TTL. -/
theorem claim8_counterexample :
    strIncludes (lowerStr "select avg(v) from t where d = current_date")
      "current_date" = true ∧
    getTTL "select avg(v) from t where d = current_date" ≠ 60 * 1000 := by decide

/-- C8 (amended): a query referencing the current moment gets the short
TTL only when it contains none of the aggregate markers (`group by`,
`avg(`, `sum(`), which are checked first and take precedence. -/
theorem claim8_amended (query : String)
    (hcur : strIncludes (lowerStr query) "current_date" = true ∨
      strIncludes (lowerStr query) "now()" = true)
    (hg : strIncludes (lowerStr query) "group by" = false)
    (ha : strIncludes (lowerStr query) "avg(" = false)
    (hs : strIncludes (lowerStr query) "sum(" = false) :
    getTTL query = 60 * 1000 := by
  unfold getTTL
  rw [hg, ha, hs]
  rcases hcur with h | h <;> rw [h] <;> simp

/-- C8 witness: the amended theorem on a concrete current-moment query. -/
theorem claim8_witness :
    getTTL "select * from t where d >= current_date" = 60 * 1000 :=
  claim8_amended "select * from t where d >= current_date"
    (Or.inl (by decide)) (by decide) (by decide) (by decide)

/-! ### Claim C10: unload never propagates; failed drop leaves the entry -/

/-- C10: `unloadTable` always resolves (never propagates an error), and
when the engine drop step fails the catalog is returned unchanged —
`markUnloaded` is not invoked, so `loaded` and `rowCount` are retained. -/
theorem claim10_unload (cat : Catalog) (tableName : String)
    (dropRes : Except String Unit) :
    (∃ c2, unloadTable cat tableName dropRes = Except.ok c2) ∧
    (∀ e, dropRes = Except.error e → unloadTable cat tableName dropRes = Except.ok cat) := by
  constructor
  · cases dropRes with
    | ok u => exact ⟨markUnloaded cat tableName, rfl⟩
    | error e => exact ⟨cat, rfl⟩
  · intro e h
    subst h
    rfl

/-- C10 witness: a concrete failed drop leaves the catalog unchanged. -/
theorem claim10_witness :
    unloadTable cexCatalog "hkquantitytypeidentifierheartrate" (Except.error "drop failed")
      = Except.ok cexCatalog :=
  (claim10_unload cexCatalog "hkquantitytypeidentifierheartrate"
    (Except.error "drop failed")).2 "drop failed" rfl

/-! ### Claim C5: zero qualifying rows is a successful no-load -/

/-- C5: when the staged row count is zero, `ensureTableLoaded` completes
without error, the staging table is dropped, the catalog is untouched
(`markLoaded` not called) and the entry's `loaded` flag stays false. -/
theorem claim5_zero_rows (cat : Catalog) (tableName : String) (env : LoadEnv)
    (now : Int) (entry : CatalogEntry)
    (hget : getEntry cat tableName = some entry)
    (hnl : entry.loaded = false)
    (hzero : env.createRes = Except.ok 0) :
    ensureTableLoaded cat tableName env now = ⟨cat, ⟨false, false⟩, none⟩ ∧
    (getEntry cat tableName).map CatalogEntry.loaded = some false := by
  constructor
  · unfold ensureTableLoaded
    rw [hget]
    simp only [hnl, if_neg (Bool.false_ne_true)]
    unfold loadTable
    rw [hzero]
    simp
  · rw [hget, Option.map_some']
    rw [hnl]

/-- C5 witness: the theorem at a concrete not-yet-loaded catalog entry. -/
theorem claim5_witness :
    ensureTableLoaded cexCatalog "hkquantitytypeidentifierheartrate"
      ⟨Except.ok 0, Except.ok ()⟩ 7 = ⟨cexCatalog, ⟨false, false⟩, none⟩ ∧
    (getEntry cexCatalog "hkquantitytypeidentifierheartrate").map CatalogEntry.loaded
      = some false :=
  claim5_zero_rows cexCatalog "hkquantitytypeidentifierheartrate"
    ⟨Except.ok 0, Except.ok ()⟩ 7
    ⟨"/data/HKQuantityTypeIdentifierHeartRate.csv", false, none, none⟩
    (by decide) rfl rfl

/-! ### Claim C4: failed load drops staging; error names table (not file) -/

/-- C4 counterexample: a bulk-load failure propagates
`Failed to load table <name>: <error>` — the message names the table but
does not contain the source file path, contrary to the claim. -/
theorem claim4_counterexample :
    (loadTable cexCatalog "hkquantitytypeidentifierheartrate"
        "/data/HKQuantityTypeIdentifierHeartRate.csv"
        ⟨Except.error "out of memory", Except.ok ()⟩ 0).err
      = some "Failed to load table hkquantitytypeidentifierheartrate: out of memory" ∧
    strIncludes "Failed to load table hkquantitytypeidentifierheartrate: out of memory"
      "/data/HKQuantityTypeIdentifierHeartRate.csv" = false := by decide

/-- C4 (amended): on any failure mid-load the staging table is dropped and
the propagated error names the table; the source file path appears only if
the underlying engine error text happens to mention it. -/
theorem claim4_amended (cat : Catalog) (tableName filePath : String) (env : LoadEnv)
    (now : Int) (msg : String)
    (herr : (loadTable cat tableName filePath env now).err = some msg) :
    (loadTable cat tableName filePath env now).db.staging = false ∧
    strIncludes msg tableName = true := by
  cases hc : env.createRes with
  | error e =>
    have hload : loadTable cat tableName filePath env now =
        ⟨cat, ⟨false, false⟩,
          some ("Failed to load table " ++ tableName ++ ": " ++ e)⟩ := by
      simp [loadTable, hc]
    rw [hload] at herr ⊢
    refine ⟨rfl, ?_⟩
    have hmsg : msg = "Failed to load table " ++ tableName ++ ": " ++ e :=
      (Option.some.inj herr).symm
    rw [hmsg, String.append_assoc]
    exact strIncludes_middle "Failed to load table " tableName (": " ++ e)
  | ok n =>
    by_cases hn : n > 0
    · cases hcl : env.cleanRes with
      | error e =>
        have hload : loadTable cat tableName filePath env now =
            ⟨cat, ⟨false, false⟩,
              some ("Failed to load table " ++ tableName ++ ": " ++ e)⟩ := by
          simp [loadTable, hc, hn, hcl]
        rw [hload] at herr ⊢
        refine ⟨rfl, ?_⟩
        have hmsg : msg = "Failed to load table " ++ tableName ++ ": " ++ e :=
          (Option.some.inj herr).symm
        rw [hmsg, String.append_assoc]
        exact strIncludes_middle "Failed to load table " tableName (": " ++ e)
      | ok u =>
        have hload : (loadTable cat tableName filePath env now).err = none := by
          simp [loadTable, hc, hn, hcl]
        rw [hload] at herr
        cases herr
    · have hload : (loadTable cat tableName filePath env now).err = none := by
        simp [loadTable, hc, hn]
      rw [hload] at herr
      cases herr

/-- C4 witness: the amended theorem at a concrete failing load. -/
theorem claim4_witness :
    (loadTable cexCatalog "hkquantitytypeidentifierheartrate"
        "/data/HKQuantityTypeIdentifierHeartRate.csv"
        ⟨Except.error "out of memory", Except.ok ()⟩ 0).db.staging = false ∧
    strIncludes "Failed to load table hkquantitytypeidentifierheartrate: out of memory"
      "hkquantitytypeidentifierheartrate" = true :=
  claim4_amended cexCatalog "hkquantitytypeidentifierheartrate"
    "/data/HKQuantityTypeIdentifierHeartRate.csv"
    ⟨Except.error "out of memory", Except.ok ()⟩ 0
    "Failed to load table hkquantitytypeidentifierheartrate: out of memory" (by decide)

/-! ### Claim C1: unknown table names and the pipeline -/

/-- C1 counterexample: a query referencing `hkfaketable`, absent from the
catalog, flows through the whole pipeline without an UnknownTable failure
and *is* executed against the engine (extraction only matches known
catalog names, so the unknown reference goes undetected). -/
theorem claim1_counterexample :
    ((runQueryPipeline cexCatalog (QueryCache.empty 100)
        (fun _ => ⟨Except.ok 5, Except.ok ()⟩) (fun _ => Except.ok dummyResult)
        "SELECT * FROM hkfaketable" 0).toOption.map PipelineOut.executedOnEngine)
      = some true := by decide

/-- C1 (amended): extraction only ever returns catalog table names, so the
pipeline never raises UnknownTable for a name absent from the catalog (the
query instead reaches the engine); `ensureTableLoaded` itself, called
directly with an unknown name, does fail with a message naming the table,
without touching the catalog. -/
theorem claim1_amended :
    (∀ (cat : Catalog) (query t : String),
        t ∈ extractTableNames cat query → t ∈ getAllTables cat) ∧
    (∀ (cat : Catalog) (tableName : String) (env : LoadEnv) (now : Int),
        getEntry cat tableName = none →
          ensureTableLoaded cat tableName env now =
            ⟨cat, ⟨false, false⟩,
              some ("Table " ++ tableName ++ " not found in catalog")⟩) := by
  constructor
  · intro cat query t ht
    exact (List.mem_filter.mp ht).1
  · intro cat tableName env now h
    unfold ensureTableLoaded
    rw [h]

/-- C1 witness: both halves of the amended theorem at concrete inputs. -/
theorem claim1_witness :
    "hkquantitytypeidentifierheartrate" ∈ getAllTables cexCatalog ∧
    ensureTableLoaded cexCatalog "hkfaketable" ⟨Except.ok 1, Except.ok ()⟩ 0 =
      ⟨cexCatalog, ⟨false, false⟩,
        some ("Table " ++ "hkfaketable" ++ " not found in catalog")⟩ :=
  ⟨claim1_amended.1 cexCatalog "select * from hkquantitytypeidentifierheartrate"
      "hkquantitytypeidentifierheartrate" (by decide),
   claim1_amended.2 cexCatalog "hkfaketable" ⟨Except.ok 1, Except.ok ()⟩ 0 (by decide)⟩

/-! ### Association-list lemmas for the cache claims -/

theorem mapGet_eq_none_iff {β : Type} (l : List (String × β)) (k : String) :
    mapGet l k = none ↔ k ∉ l.map Prod.fst := by
  induction l with
  | nil => simp [mapGet]
  | cons p rest ih =>
    obtain ⟨k', v⟩ := p
    by_cases h : k' = k
    · subst h
      simp [mapGet]
    · simp only [mapGet, if_neg h, ih, List.map_cons, List.mem_cons, not_or]
      constructor
      · intro hn
        exact ⟨fun hk => h hk.symm, hn⟩
      · intro hn
        exact hn.2

theorem mapGet_some_mem {β : Type} (l : List (String × β)) (k : String) (v : β)
    (h : mapGet l k = some v) : k ∈ l.map Prod.fst := by
  by_contra hn
  rw [(mapGet_eq_none_iff l k).mpr hn] at h
  cases h

theorem mapSet_absent {β : Type} (l : List (String × β)) (k : String) (v : β)
    (h : k ∉ l.map Prod.fst) : mapSet l k v = l ++ [(k, v)] := by
  induction l with
  | nil => rfl
  | cons p rest ih =>
    obtain ⟨k', v'⟩ := p
    simp only [List.map_cons, List.mem_cons, not_or] at h
    have hne : ¬ (k' = k) := fun hk => h.1 hk.symm
    simp only [mapSet, if_neg hne, List.cons_append, ih h.2]

theorem mapSet_length_present {β : Type} (l : List (String × β)) (k : String) (v : β)
    (h : k ∈ l.map Prod.fst) : (mapSet l k v).length = l.length := by
  induction l with
  | nil => simp at h
  | cons p rest ih =>
    obtain ⟨k', v'⟩ := p
    by_cases hk : k' = k
    · simp [mapSet, hk]
    · simp only [List.map_cons, List.mem_cons] at h
      rcases h with h | h
      · exact absurd h.symm hk
      · simp [mapSet, hk, ih h]

theorem mapGet_mapSet_self {β : Type} (l : List (String × β)) (k : String) (v : β) :
    mapGet (mapSet l k v) k = some v := by
  induction l with
  | nil => simp [mapSet, mapGet]
  | cons p rest ih =>
    obtain ⟨k', v'⟩ := p
    by_cases hk : k' = k
    · simp [mapSet, hk, mapGet]
    · simp [mapSet, hk, mapGet, ih]

theorem mapGet_mapSet_ne {β : Type} (l : List (String × β)) (k k2 : String) (v : β)
    (h : k2 ≠ k) : mapGet (mapSet l k v) k2 = mapGet l k2 := by
  induction l with
  | nil => simp [mapSet, mapGet, Ne.symm h]
  | cons p rest ih =>
    obtain ⟨k', v'⟩ := p
    by_cases hk : k' = k
    · subst hk
      have hne : ¬ (k' = k2) := fun e => h e.symm
      simp only [mapSet, if_pos rfl, mapGet, if_neg hne]
    · simp only [mapSet, if_neg hk, mapGet]
      by_cases hk2 : k' = k2
      · simp [hk2]
      · simp [hk2, ih]

theorem mapDelete_length_mem {β : Type} (l : List (String × β)) (k : String)
    (h : k ∈ l.map Prod.fst) : (mapDelete l k).length + 1 = l.length := by
  induction l with
  | nil => simp at h
  | cons p rest ih =>
    obtain ⟨k', v'⟩ := p
    by_cases hk : k' = k
    · simp [mapDelete, hk]
    · simp only [List.map_cons, List.mem_cons] at h
      rcases h with h | h
      · exact absurd h.symm hk
      · simp only [mapDelete, if_neg hk, List.length_cons]
        rw [ih h]

theorem mapGet_mapDelete_ne {β : Type} (l : List (String × β)) (k k2 : String)
    (h : k2 ≠ k) : mapGet (mapDelete l k) k2 = mapGet l k2 := by
  induction l with
  | nil => rfl
  | cons p rest ih =>
    obtain ⟨k', v'⟩ := p
    by_cases hk : k' = k
    · subst hk
      have hne : ¬ (k' = k2) := fun e => h e.symm
      simp [mapDelete, mapGet, hne]
    · simp only [mapDelete, if_neg hk, mapGet]
      by_cases hk2 : k' = k2
      · simp [hk2]
      · simp [hk2, ih]

theorem mapGet_mapDelete_self {β : Type} (l : List (String × β)) (k : String)
    (hnd : (l.map Prod.fst).Nodup) : mapGet (mapDelete l k) k = none := by
  induction l with
  | nil => rfl
  | cons p rest ih =>
    obtain ⟨k', v'⟩ := p
    simp only [List.map_cons, List.nodup_cons] at hnd
    by_cases hk : k' = k
    · subst hk
      simp only [mapDelete, if_pos rfl]
      exact (mapGet_eq_none_iff rest k').mpr hnd.1
    · simp only [mapDelete, if_neg hk, mapGet, if_neg hk]
      exact ih hnd.2

/-! ### `findOldestEntry` lemmas -/

theorem findOldestAux_mem (b : String × Int) (l : List (String × CachedResult)) :
    findOldestAux b l = b.1 ∨ findOldestAux b l ∈ l.map Prod.fst := by
  induction l generalizing b with
  | nil => left; rfl
  | cons p rest ih =>
    obtain ⟨k, v⟩ := p
    simp only [findOldestAux]
    by_cases hv : v.timestamp < b.2
    · rw [if_pos hv]
      rcases ih (k, v.timestamp) with h | h
      · right; simp [h]
      · right; simp [h]
    · rw [if_neg hv]
      rcases ih b with h | h
      · left; exact h
      · right; simp [h]

theorem findOldestEntry_mem (l : List (String × CachedResult)) (k : String)
    (h : findOldestEntry l = some k) : k ∈ l.map Prod.fst := by
  cases l with
  | nil => cases h
  | cons p rest =>
    obtain ⟨k0, v0⟩ := p
    have hk : findOldestAux (k0, v0.timestamp) rest = k := Option.some.inj h
    rcases findOldestAux_mem (k0, v0.timestamp) rest with h1 | h1
    · rw [hk] at h1
      rw [h1]
      simp
    · rw [hk] at h1
      exact List.mem_cons_of_mem _ h1

theorem findOldestAux_keep (b : String × Int) (l : List (String × CachedResult))
    (h : ∀ x ∈ l, ¬(x.2.timestamp < b.2)) : findOldestAux b l = b.1 := by
  induction l generalizing b with
  | nil => rfl
  | cons p rest ih =>
    obtain ⟨k, v⟩ := p
    have hv : ¬ v.timestamp < b.2 := h (k, v) (by simp)
    simp only [findOldestAux, if_neg hv]
    exact ih b (fun x hx => h x (List.mem_cons_of_mem _ hx))

theorem findOldestEntry_head (k : String) (v : CachedResult)
    (rest : List (String × CachedResult))
    (h : ∀ x ∈ rest, ¬(x.2.timestamp < v.timestamp)) :
    findOldestEntry ((k, v) :: rest) = some k := by
  rw [findOldestEntry, findOldestAux_keep _ _ h]

/-! ### Claim C9: `set` on a full cache with an already-present key -/

/-- C9: on a full cache (`size = maxSize`), `set` with a key already
present first deletes the globally oldest entry and then overwrites the
existing key in place; when the oldest entry has a different key, that
unrelated result is lost and the cache shrinks to `maxSize - 1`. -/
theorem claim9_full_overwrite (c : QueryCache) (query : String) (params : Option String)
    (r : QueryResult) (now : Int) (okey : String) (old : CachedResult)
    (hnodup : (c.cache.map Prod.fst).Nodup)
    (hfull : c.cache.length = c.maxSize)
    (hmem : mapGet c.cache (getCacheKey query params) = some old)
    (hold : findOldestEntry c.cache = some okey)
    (hne : okey ≠ getCacheKey query params) :
    (QueryCache.set c query r params now).cache.length = c.maxSize - 1 ∧
    mapGet (QueryCache.set c query r params now).cache okey = none ∧
    mapGet (QueryCache.set c query r params now).cache (getCacheKey query params)
      = some ⟨r, now, getTTL query⟩ := by
  have hset : (QueryCache.set c query r params now).cache =
      mapSet (mapDelete c.cache okey) (getCacheKey query params)
        ⟨r, now, getTTL query⟩ := by
    simp only [QueryCache.set, if_pos hfull.ge, hold]
  have hkey_del : mapGet (mapDelete c.cache okey) (getCacheKey query params) = some old := by
    rw [mapGet_mapDelete_ne _ _ _ (Ne.symm hne)]
    exact hmem
  have hkey_mem : getCacheKey query params ∈ (mapDelete c.cache okey).map Prod.fst :=
    mapGet_some_mem _ _ _ hkey_del
  have hokey_mem : okey ∈ c.cache.map Prod.fst := findOldestEntry_mem _ _ hold
  refine ⟨?_, ?_, ?_⟩
  · rw [hset, mapSet_length_present _ _ _ hkey_mem]
    have := mapDelete_length_mem c.cache okey hokey_mem
    omega
  · rw [hset, mapGet_mapSet_ne _ _ _ _ hne]
    exact mapGet_mapDelete_self _ _ hnodup
  · rw [hset]
    exact mapGet_mapSet_self _ _ _

/-- C9 witness: a full two-entry cache, overwriting key `b` while the
oldest entry is `a`. -/
theorem claim9_witness :
    (QueryCache.set ⟨[("a", ⟨dummyResult, 0, 100⟩), ("b", ⟨dummyResult, 5, 100⟩)], 2⟩
        "b" dummyResult none 50).cache.length = 2 - 1 ∧
    mapGet (QueryCache.set ⟨[("a", ⟨dummyResult, 0, 100⟩), ("b", ⟨dummyResult, 5, 100⟩)], 2⟩
        "b" dummyResult none 50).cache "a" = none ∧
    mapGet (QueryCache.set ⟨[("a", ⟨dummyResult, 0, 100⟩), ("b", ⟨dummyResult, 5, 100⟩)], 2⟩
        "b" dummyResult none 50).cache (getCacheKey "b" none)
      = some ⟨dummyResult, 50, getTTL "b"⟩ :=
  claim9_full_overwrite ⟨[("a", ⟨dummyResult, 0, 100⟩), ("b", ⟨dummyResult, 5, 100⟩)], 2⟩
    "b" none dummyResult 50 "a" ⟨dummyResult, 5, 100⟩
    (by decide) (by decide) (by decide) (by decide) (by decide)

/-! ### Claim C3: capacity eviction removes the oldest entry -/

theorem set_fresh (c : QueryCache) (q : String) (r : QueryResult) (t : Int)
    (hlt : c.cache.length < c.maxSize)
    (habs : getCacheKey q none ∉ c.cache.map Prod.fst) :
    QueryCache.set c q r none t = ⟨c.cache ++ [cacheEntryOf r (q, t)], c.maxSize⟩ := by
  simp only [QueryCache.set, if_neg (not_le.mpr hlt)]
  rw [mapSet_absent _ _ _ habs]
  rfl

theorem setMany_fresh (items : List (String × Int)) (c : QueryCache) (r : QueryResult)
    (hlen : c.cache.length + items.length ≤ c.maxSize)
    (habs : ∀ it ∈ items, getCacheKey it.1 none ∉ c.cache.map Prod.fst)
    (hnd : (items.map (fun it => getCacheKey it.1 none)).Nodup) :
    setMany c items r = ⟨c.cache ++ items.map (cacheEntryOf r), c.maxSize⟩ := by
  induction items generalizing c with
  | nil =>
    simp only [setMany, List.foldl_nil, List.map_nil, List.append_nil]
  | cons it rest ih =>
    have hlt : c.cache.length < c.maxSize := by
      simp only [List.length_cons] at hlen
      omega
    have habs0 : getCacheKey it.1 none ∉ c.cache.map Prod.fst := habs it (by simp)
    have hstep : QueryCache.set c it.1 r none it.2 =
        ⟨c.cache ++ [cacheEntryOf r it], c.maxSize⟩ :=
      set_fresh c it.1 r it.2 hlt habs0
    have hm : setMany c (it :: rest) r =
        setMany (QueryCache.set c it.1 r none it.2) rest r := rfl
    rw [hm, hstep]
    simp only [List.map_cons, List.nodup_cons] at hnd
    have hrec := ih ⟨c.cache ++ [cacheEntryOf r it], c.maxSize⟩
      (by
        simp only [List.length_append, List.length_cons, List.length_nil] at hlen ⊢
        omega)
      (by
        intro it2 hit2
        simp only [List.map_append, List.mem_append]
        rintro (hin | hin)
        · exact habs it2 (List.mem_cons_of_mem _ hit2) hin
        · have : getCacheKey it2.1 none = getCacheKey it.1 none := by
            simpa [cacheEntryOf] using hin
          exact hnd.1 (this ▸ List.mem_map_of_mem _ hit2))
      hnd.2
    rw [hrec]
    simp [List.append_assoc]

/-- C3: starting from an empty cache of capacity `N > 0`, inserting `N+1`
entries with pairwise-distinct keys and strictly increasing creation
times leaves exactly `N` entries: the first (globally oldest by
`createdAt`) entry is absent, and every later entry is present. -/
theorem claim3_oldest_evicted (N : Nat) (hN : 0 < N) (q0 : String) (t0 : Int)
    (rest : List (String × Int)) (r : QueryResult)
    (hlen : rest.length = N)
    (hkeys : (((q0, t0) :: rest).map (fun it => getCacheKey it.1 none)).Nodup)
    (htimes : ((((q0, t0) :: rest).map Prod.snd)).Chain' (· < ·)) :
    (setMany (QueryCache.empty N) ((q0, t0) :: rest) r).cache.length = N ∧
    mapGet (setMany (QueryCache.empty N) ((q0, t0) :: rest) r).cache
      (getCacheKey q0 none) = none ∧
    ∀ it ∈ rest, getCacheKey it.1 none ∈
      (setMany (QueryCache.empty N) ((q0, t0) :: rest) r).cache.map Prod.fst := by
  rcases List.eq_nil_or_concat rest with hr | ⟨init, lst, hr⟩
  · subst hr
    simp at hlen
    omega
  · subst hr
    simp only [List.concat_eq_append] at hlen hkeys htimes ⊢
    have hinit : init.length + 1 = N := by
      simpa using hlen
    -- the fold over `(q0,t0) :: init ++ [lst]` is: fresh inserts, then one
    -- final `set` at capacity
    have hassoc : (q0, t0) :: (init ++ [lst]) = ((q0, t0) :: init) ++ [lst] := rfl
    have hsplit : setMany (QueryCache.empty N) ((q0, t0) :: (init ++ [lst])) r =
        QueryCache.set (setMany (QueryCache.empty N) ((q0, t0) :: init) r)
          lst.1 r none lst.2 := by
      unfold setMany
      rw [hassoc, List.foldl_append]
      rfl
    have hnd1 : (((q0, t0) :: init).map (fun it => getCacheKey it.1 none)).Nodup := by
      refine List.Nodup.sublist ?_ hkeys
      rw [hassoc, List.map_append]
      exact List.sublist_append_left _ _
    have hB : setMany (QueryCache.empty N) ((q0, t0) :: init) r =
        ⟨((q0, t0) :: init).map (cacheEntryOf r), N⟩ := by
      have := setMany_fresh ((q0, t0) :: init) (QueryCache.empty N) r
        (by simp [QueryCache.empty]; omega)
        (by intro it2 hit2; simp [QueryCache.empty])
        hnd1
      simpa [QueryCache.empty] using this
    -- timestamps: `t0` is strictly below every later time
    have hpair : ((((q0, t0) :: (init ++ [lst])).map Prod.snd)).Pairwise (· < ·) :=
      List.chain'_iff_pairwise.mp htimes
    have ht0 : ∀ t ∈ (init ++ [lst]).map Prod.snd, t0 < t := by
      intro t ht
      exact List.rel_of_pairwise_cons hpair ht
    -- the entry list before the final insert
    have hfold : findOldestEntry (((q0, t0) :: init).map (cacheEntryOf r)) =
        some (getCacheKey q0 none) := by
      rw [List.map_cons,
        show cacheEntryOf r (q0, t0) = ((getCacheKey q0 none), ⟨r, t0, getTTL q0⟩) from rfl]
      refine findOldestEntry_head _ _ _ ?_
      intro x hx
      obtain ⟨it2, hit2, hxeq⟩ := List.mem_map.mp hx
      have hlt : t0 < it2.2 :=
        ht0 it2.2 (List.mem_map_of_mem _ (List.mem_append_left _ hit2))
      rw [← hxeq]
      simp only [cacheEntryOf]
      simp
      omega
    have hlenB : (((q0, t0) :: init).map (cacheEntryOf r)).length = N := by
      simpa using hinit
    have hcomp : (Prod.fst ∘ cacheEntryOf r) =
        (fun it : String × Int => getCacheKey it.1 none) := rfl
    -- tail keys are nodup and do not contain the key of `q0`
    have hkeys' : (getCacheKey q0 none ∉
        ((init ++ [lst]).map (fun it => getCacheKey it.1 none))) ∧
        (((init ++ [lst]).map (fun it => getCacheKey it.1 none)).Nodup) := by
      have := hkeys
      rw [List.map_cons] at this
      exact List.nodup_cons.mp this
    have hlst_abs : getCacheKey lst.1 none ∉ (init.map (cacheEntryOf r)).map Prod.fst := by
      rw [List.map_map, hcomp]
      intro hmem
      have h2 := hkeys'.2
      rw [List.map_append] at h2
      rcases List.nodup_append.mp h2 with ⟨_, _, hdisj⟩
      exact hdisj hmem (by simp)
    have hdel : mapDelete (((q0, t0) :: init).map (cacheEntryOf r)) (getCacheKey q0 none)
        = init.map (cacheEntryOf r) := by
      rw [List.map_cons,
        show cacheEntryOf r (q0, t0) = ((getCacheKey q0 none), ⟨r, t0, getTTL q0⟩) from rfl]
      simp [mapDelete]
    have hfin : (QueryCache.set ⟨((q0, t0) :: init).map (cacheEntryOf r), N⟩
          lst.1 r none lst.2).cache
        = init.map (cacheEntryOf r) ++ [cacheEntryOf r lst] := by
      simp only [QueryCache.set, if_pos hlenB.ge, hfold]
      rw [hdel, mapSet_absent _ _ _ hlst_abs]
      rfl
    rw [hsplit, hB, hfin]
    refine ⟨?_, ?_, ?_⟩
    · simp [hinit]
    · refine (mapGet_eq_none_iff _ _).mpr ?_
      rw [List.map_append, List.map_map, hcomp]
      intro hmem
      rcases List.mem_append.mp hmem with hmem | hmem
      · exact hkeys'.1 (by
          rw [List.map_append]
          exact List.mem_append_left _ hmem)
      · have : getCacheKey q0 none = getCacheKey lst.1 none := by
          simpa [cacheEntryOf] using hmem
        refine hkeys'.1 ?_
        rw [List.map_append, this]
        simp
    · intro it hit
      rw [List.map_append, List.map_map, hcomp]
      rcases List.mem_append.mp hit with hmem | hmem
      · exact List.mem_append_left _ (List.mem_map_of_mem _ hmem)
      · refine List.mem_append_right _ ?_
        have : it = lst := by simpa using hmem
        simp [this, cacheEntryOf]

/-- C3 witness: capacity 1, two inserts; the first entry is evicted and
the second remains. -/
theorem claim3_witness :
    (setMany (QueryCache.empty 1) (("a", 0) :: [("b", 1)]) dummyResult).cache.length = 1 ∧
    mapGet (setMany (QueryCache.empty 1) (("a", 0) :: [("b", 1)]) dummyResult).cache
      (getCacheKey "a" none) = none ∧
    ∀ it ∈ ([("b", 1)] : List (String × Int)), getCacheKey it.1 none ∈
      (setMany (QueryCache.empty 1) (("a", 0) :: [("b", 1)]) dummyResult).cache.map Prod.fst :=
  claim3_oldest_evicted 1 (by decide) "a" 0 [("b", 1)] dummyResult
    (by decide) (by decide) (by simp)

/-! ### Claim C6: LRU ordering of `getTablesByLastAccess` -/

theorem filter_orderedInsert_key (t : Int) (x : String × CatalogEntry)
    (l : List (String × CatalogEntry)) :
    (List.orderedInsert accessLE x l).filter (fun y => accessTime y.2 == t)
      = if accessTime x.2 == t then
          x :: l.filter (fun y => accessTime y.2 == t)
        else l.filter (fun y => accessTime y.2 == t) := by
  induction l with
  | nil =>
    by_cases hx : accessTime x.2 = t <;> simp [List.orderedInsert, hx]
  | cons b l ih =>
    by_cases hr : accessLE x b
    · rw [List.orderedInsert_of_le accessLE _ hr]
      by_cases hx : accessTime x.2 = t <;> simp [List.filter_cons, hx]
    · simp only [List.orderedInsert, if_neg hr]
      have hlt : accessTime b.2 < accessTime x.2 := not_le.mp hr
      by_cases hx : accessTime x.2 = t
      · have hb : ¬ (accessTime b.2 = t) := fun e => (ne_of_lt hlt) (e.trans hx.symm)
        simp [List.filter_cons, hx, hb, ih]
      · by_cases hb : accessTime b.2 = t <;>
          simp [List.filter_cons, hx, hb, ih]

theorem filter_insertionSort_key (t : Int) (l : List (String × CatalogEntry)) :
    (List.insertionSort accessLE l).filter (fun y => accessTime y.2 == t)
      = l.filter (fun y => accessTime y.2 == t) := by
  induction l with
  | nil => rfl
  | cons a l ih =>
    rw [List.insertionSort, filter_orderedInsert_key]
    by_cases hx : accessTime a.2 = t <;> simp [List.filter_cons, hx, ih]

/-- C6: `getTablesByLastAccess` returns exactly the loaded table names; the
underlying entry list is sorted ascending by `lastAccessed?.getTime() || 0`
(the `Array.prototype.sort` comparator), with entries of equal access time
kept in catalog insertion order (stable sort); consequently `forceEvict(1)`
on two loaded tables accessed at t=0 and t=10 unloads the t=0 table and
keeps the t=10 table loaded. -/
theorem claim6_lru_order :
    (∀ (cat : Catalog) (n : String),
        n ∈ getTablesByLastAccess cat ↔ ∃ e, (n, e) ∈ cat ∧ e.loaded = true) ∧
    (∀ cat : Catalog, (catalogByAccess cat).Sorted accessLE) ∧
    (∀ (cat : Catalog) (t : Int),
        (catalogByAccess cat).filter (fun y => accessTime y.2 == t)
          = (cat.filter (fun p => p.2.loaded)).filter (fun y => accessTime y.2 == t)) ∧
    ((getEntry (forceEviction [("a", ⟨"a.csv", true, some 10, some 0⟩),
          ("b", ⟨"b.csv", true, some 10, some 10⟩)] 1 (fun _ => Except.ok ())) "a").map
        CatalogEntry.loaded = some false ∧
     (getEntry (forceEviction [("a", ⟨"a.csv", true, some 10, some 0⟩),
          ("b", ⟨"b.csv", true, some 10, some 10⟩)] 1 (fun _ => Except.ok ())) "b").map
        CatalogEntry.loaded = some true) := by
  refine ⟨?_, ?_, ?_, by decide, by decide⟩
  · intro cat n
    simp only [getTablesByLastAccess, catalogByAccess, List.mem_map,
      (List.perm_insertionSort accessLE _).mem_iff, List.mem_filter]
    constructor
    · rintro ⟨x, ⟨hmem, hload⟩, hfst⟩
      refine ⟨x.2, ?_, hload⟩
      rw [← hfst]
      exact hmem
    · rintro ⟨e, hmem, hload⟩
      exact ⟨(n, e), ⟨hmem, hload⟩, rfl⟩
  · intro cat
    exact List.sorted_insertionSort accessLE _
  · intro cat t
    exact filter_insertionSort_key t _

/-! ### Claim C7: view substitution is substring-based, not whole-word -/

theorem replaceCIAux_nil (pat repl : List Char) : replaceCIAux pat repl [] = [] := by
  rw [replaceCIAux]

theorem replaceCIAux_cons (pat repl : List Char) (c : Char) (rest : List Char) :
    replaceCIAux pat repl (c :: rest) =
      if pat.isPrefixOf ((c :: rest).map Char.toLower) then
        repl ++ replaceCIAux pat repl (rest.drop (pat.length - 1))
      else c :: replaceCIAux pat repl rest := by
  rw [replaceCIAux]

/-- If the (lowercase) pattern occurs nowhere in the lowercased text,
replacement leaves the text unchanged. -/
theorem replaceCIAux_no_occ (pat repl l : List Char)
    (hno : hasSub pat (l.map Char.toLower) = false) :
    replaceCIAux pat repl l = l := by
  induction l with
  | nil => exact replaceCIAux_nil pat repl
  | cons c rest ih =>
    rw [List.map_cons, hasSub, Bool.or_eq_false_iff] at hno
    rw [replaceCIAux_cons, List.map_cons, hno.1]
    simp only [Bool.false_eq_true, if_false]
    rw [ih hno.2]

/-- A match at the front of the text is replaced, and scanning resumes
right after the matched characters. -/
theorem replaceCIAux_front (pat repl pre suf : List Char)
    (hpre : pre.map Char.toLower = pat) (hne : pre ≠ []) :
    replaceCIAux pat repl (pre ++ suf) = repl ++ replaceCIAux pat repl suf := by
  cases pre with
  | nil => exact absurd rfl hne
  | cons c cs =>
    rw [List.cons_append, replaceCIAux_cons]
    have hpfx : pat.isPrefixOf ((c :: (cs ++ suf)).map Char.toLower) = true := by
      rw [← List.cons_append, List.map_append, ← hpre]
      exact List.isPrefixOf_iff_prefix.mpr ⟨suf.map Char.toLower, rfl⟩
    rw [hpfx, if_pos rfl]
    have hlen : pat.length = cs.length + 1 := by
      rw [← hpre]
      simp
    rw [hlen]
    simp only [Nat.add_sub_cancel]
    rw [List.drop_left]

/-- The substitution loop on a query that begins with the view name
`daily_heart_rate` immediately followed by more identifier characters:
the occurrence is substituted even though it is a proper prefix of a
longer identifier. -/
theorem subViews_front (s : String)
    (h1 : hasSub ("daily_heart_rate".data) (("x" ++ s).data.map Char.toLower) = false)
    (h2 : strIncludes (lowerStr ("daily_heart_rate" ++ ("x" ++ s))) "weekly_activity" = false)
    (h3 : strIncludes (lowerStr ("daily_heart_rate" ++ ("x" ++ s))) "sleep_summary" = false) :
    substituteViews viewDefinitions ("daily_heart_rate" ++ ("x" ++ s))
      = "(" ++ dailyHeartRateDef ++ ")" ++ ("x" ++ s) := by
  have hlow : (lowerStr ("daily_heart_rate" ++ ("x" ++ s))).data
      = "daily_heart_rate".data ++ ("x" ++ s).data.map Char.toLower := by
    show ("daily_heart_rate" ++ ("x" ++ s)).data.map Char.toLower = _
    rw [String.data_append, List.map_append]
    congr 1
  have hg1 : strIncludes (lowerStr ("daily_heart_rate" ++ ("x" ++ s)))
      "daily_heart_rate" = true := by
    unfold strIncludes
    rw [hlow]
    simpa using hasSub_middle "daily_heart_rate".data []
      (("x" ++ s).data.map Char.toLower)
  have hfold : substituteViews viewDefinitions ("daily_heart_rate" ++ ("x" ++ s))
      = replaceCI ("daily_heart_rate" ++ ("x" ++ s)) "daily_heart_rate"
          ("(" ++ dailyHeartRateDef ++ ")") := by
    simp only [substituteViews, viewDefinitions, List.foldl_cons, List.foldl_nil,
      hg1, h2, h3, Bool.false_eq_true, if_false, if_true]
  rw [hfold]
  refine String.ext ?_
  show replaceCIAux ("daily_heart_rate".data) (("(" ++ dailyHeartRateDef ++ ")").data)
      (("daily_heart_rate" ++ ("x" ++ s)).data) = _
  rw [show ("daily_heart_rate" ++ ("x" ++ s)).data
        = "daily_heart_rate".data ++ ("x" ++ s).data from String.data_append _ _,
    replaceCIAux_front _ _ _ _ (by decide) (by decide),
    replaceCIAux_no_occ _ _ _ h1,
    show ("(" ++ dailyHeartRateDef ++ ")" ++ ("x" ++ s)).data
        = ("(" ++ dailyHeartRateDef ++ ")").data ++ ("x" ++ s).data from String.data_append _ _]

/-- C7 counterexample: in the query `daily_heart_ratex` the view name
`daily_heart_rate` occurs only as a proper prefix of the longer
identifier, yet `optimizeQuery`'s substitution loop rewrites it — the
result differs from the input, contradicting whole-word-only
substitution. -/
theorem claim7_counterexample :
    substituteViews viewDefinitions "daily_heart_ratex" ≠ "daily_heart_ratex" := by
  have h := subViews_front "" (by decide) (by decide) (by decide)
  have hq : ("daily_heart_rate" ++ ("x" ++ "") : String) = "daily_heart_ratex" := by decide
  rw [hq] at h
  rw [h]
  decide

/-- C7 (amended): substitution is plain substring replacement
(case-insensitive, via `new RegExp(viewName, 'gi')` with no word
boundaries): an occurrence of a view name inside a longer identifier is
substituted too — here a query starting with `daily_heart_ratex...` has
the embedded view name replaced by the parenthesized expansion. -/
theorem claim7_amended (s : String)
    (h1 : hasSub ("daily_heart_rate".data) (("x" ++ s).data.map Char.toLower) = false)
    (h2 : strIncludes (lowerStr ("daily_heart_rate" ++ ("x" ++ s))) "weekly_activity" = false)
    (h3 : strIncludes (lowerStr ("daily_heart_rate" ++ ("x" ++ s))) "sleep_summary" = false) :
    substituteViews viewDefinitions ("daily_heart_rate" ++ ("x" ++ s))
      = "(" ++ dailyHeartRateDef ++ ")" ++ ("x" ++ s) :=
  subViews_front s h1 h2 h3

/-- C7 witness: the amended theorem at `s = ""`. -/
theorem claim7_witness :
    substituteViews viewDefinitions ("daily_heart_rate" ++ ("x" ++ ""))
      = "(" ++ dailyHeartRateDef ++ ")" ++ ("x" ++ "") :=
  claim7_amended "" (by decide) (by decide) (by decide)
